import Mathlib

/-!
A shallow embedding of `src/task_manager.py`, a single-user task and
team-workload tracker, together with proofs about its operations.

Modelling conventions:
* Python `int` becomes `Int` (unbounded in both languages).
* Python `datetime.date` becomes `Date` (proleptic Gregorian calendar with
  unbounded integer years); Python compares dates lexicographically on
  (year, month, day), and `date + timedelta(days=k)` becomes
  `Date.addDaysChecked`, whose `none` models the `OverflowError` Python
  raises when the target leaves the representable range
  [`date.min`, `date.max`] = [0001-01-01, 9999-12-31].
* Python `datetime.datetime` becomes `DateTime`.
* The ambient clock (`datetime.date.today()`, `datetime.datetime.now()`)
  becomes an explicit parameter of the operations that read it.
* `dict` (insertion ordered, unique keys) becomes an ordered list; lookup
  and update act on the first entry with the given key.
* A method that can raise `ValueError` returns `TaskManager × Except String τ`:
  the first component is the object state after the call (Python mutations
  performed before a `raise` are visible in it), the second the result.
* The sqlite store becomes a pair of row lists; `save_data` produces rows and
  `load_data` parses them back, `Option`-valued because parsing can raise.
-/

set_option linter.unusedVariables false

namespace TMS

/-- Calendar date, mirroring Python `datetime.date` with unbounded years. -/
structure Date where
  year : Int
  month : Nat
  day : Nat
  deriving DecidableEq

/-- Python date ordering `a <= b`: lexicographic on (year, month, day). -/
def Date.le (a b : Date) : Prop :=
  a.year < b.year ∨
    (a.year = b.year ∧ (a.month < b.month ∨ (a.month = b.month ∧ a.day ≤ b.day)))

/-- Python date ordering `a < b`: lexicographic on (year, month, day). -/
def Date.lt (a b : Date) : Prop :=
  a.year < b.year ∨
    (a.year = b.year ∧ (a.month < b.month ∨ (a.month = b.month ∧ a.day < b.day)))

instance (a b : Date) : Decidable (Date.le a b) := by
  unfold Date.le; infer_instance

instance (a b : Date) : Decidable (Date.lt a b) := by
  unfold Date.lt; infer_instance

/-- Boolean form of `Date.le`, used where the Python code evaluates `<=`. -/
def Date.ble (a b : Date) : Bool := decide (Date.le a b)

/-- Gregorian leap-year rule, as in Python's `calendar`/`datetime`. -/
def isLeap (y : Int) : Bool :=
  y % 4 == 0 && (y % 100 != 0 || y % 400 == 0)

/-- Number of days in a month of a given year (Gregorian). -/
def daysInMonth (y : Int) (m : Nat) : Nat :=
  if m == 2 then (if isLeap y then 29 else 28)
  else if m == 4 || m == 6 || m == 9 || m == 11 then 30
  else 31

/-- The day after `d` in the Gregorian calendar. -/
def Date.nextDay (d : Date) : Date :=
  if d.day < daysInMonth d.year d.month then ⟨d.year, d.month, d.day + 1⟩
  else if d.month < 12 then ⟨d.year, d.month + 1, 1⟩
  else ⟨d.year + 1, 1, 1⟩

/-- The day before `d` in the Gregorian calendar. -/
def Date.predDay (d : Date) : Date :=
  if 1 < d.day then ⟨d.year, d.month, d.day - 1⟩
  else if 1 < d.month then ⟨d.year, d.month - 1, daysInMonth d.year (d.month - 1)⟩
  else ⟨d.year - 1, 12, 31⟩

/-- Apply `f` to `d`, `n` times. -/
def iterApply (f : Date → Date) : Nat → Date → Date
  | 0, d => d
  | n + 1, d => iterApply f n (f d)

/-- Day-stepping on the unbounded proleptic Gregorian calendar: the ideal
target of `d + timedelta(days = k)` before Python's range check. -/
def Date.addDays (d : Date) (k : Int) : Date :=
  if 0 ≤ k then iterApply Date.nextDay k.toNat d
  else iterApply Date.predDay (-k).toNat d

/-- Python `d + datetime.timedelta(days = k)`: the stepped date when it lies
in Python's representable range [`date.min`, `date.max`] =
[0001-01-01, 9999-12-31]; `none` models the `OverflowError` ("date value
out of range") raised otherwise. -/
def Date.addDaysChecked (d : Date) (k : Int) : Option Date :=
  let r := d.addDays k
  if Date.le ⟨1, 1, 1⟩ r ∧ Date.le r ⟨9999, 12, 31⟩ then some r else none

/-- Timestamp, mirroring Python `datetime.datetime`. -/
structure DateTime where
  date : Date
  hour : Nat
  minute : Nat
  second : Nat
  microsecond : Nat
  deriving DecidableEq

/-- The `Priority` enum: LOW = 1, MEDIUM = 2, HIGH = 3. -/
inductive Priority where
  | LOW
  | MEDIUM
  | HIGH
  deriving DecidableEq

/-- `Priority.value`: the numeric value of the enum member. -/
def Priority.value : Priority → Int
  | .LOW => 1
  | .MEDIUM => 2
  | .HIGH => 3

/-- `Priority.name`: the symbolic name of the enum member. -/
def Priority.name : Priority → String
  | .LOW => "LOW"
  | .MEDIUM => "MEDIUM"
  | .HIGH => "HIGH"

/-- `Priority[s]`: enum lookup by symbolic name; `none` models `KeyError`. -/
def Priority.fromName (s : String) : Option Priority :=
  if s = "LOW" then some Priority.LOW
  else if s = "MEDIUM" then some Priority.MEDIUM
  else if s = "HIGH" then some Priority.HIGH
  else none

/-- The `Task` dataclass. -/
structure Task where
  id : Int
  title : String
  description : String
  deadline : Date
  priority : Priority
  assigned_to : String
  status : String
  created_at : DateTime
  deriving DecidableEq

/-- The `TeamMember` dataclass. -/
structure TeamMember where
  name : String
  email : String
  tasks : List Task
  workload : Int
  deriving DecidableEq

/-- The in-memory state of a `TaskManager`: the global task list and the
insertion-ordered member dictionary (keys are the member names). -/
structure TaskManager where
  tasks : List Task
  team_members : List TeamMember
  deriving DecidableEq

/-- `name in self.team_members` / `self.team_members[name]`: first entry
whose key matches (dict keys are unique, so first match is the match). -/
def findMember (ms : List TeamMember) (n : String) : Option TeamMember :=
  ms.find? (fun m => m.name = n)

/-- In-place update of the dict entry with key `n` (first matching entry). -/
def updateMember (ms : List TeamMember) (n : String) (f : TeamMember → TeamMember) :
    List TeamMember :=
  match ms with
  | [] => []
  | m :: rest => if m.name = n then f m :: rest else m :: updateMember rest n f

/-- Python `max(l, default = d)`. -/
def pyMax (l : List Int) (dflt : Int) : Int :=
  match l with
  | [] => dflt
  | x :: xs => xs.foldl max x

/-- `max([task.id for task in self.tasks], default=0) + 1`, the id that
`add_task` assigns next. -/
def TaskManager.nextId (tm : TaskManager) : Int :=
  pyMax (tm.tasks.map (fun t => t.id)) 0 + 1

/-- `TaskManager.add_task`. Mirrors the source order: the new task is
appended to the global list *before* the membership check, so on a
`ValueError` the returned state already contains it. `now` is the ambient
`datetime.datetime.now()` used for `created_at`. -/
def TaskManager.add_task (tm : TaskManager) (title description : String)
    (deadline : Date) (priority : Priority) (assigned_to : String)
    (now : DateTime) : TaskManager × Except String Task :=
  let task : Task :=
    ⟨tm.nextId, title, description, deadline, priority, assigned_to, "Not Started", now⟩
  let tasks1 := tm.tasks ++ [task]
  if (findMember tm.team_members assigned_to).isNone then
    ({ tm with tasks := tasks1 },
     Except.error ("Team member " ++ assigned_to ++ " does not exist"))
  else
    ({ tasks := tasks1,
       team_members := updateMember tm.team_members assigned_to
         (fun m => { m with tasks := m.tasks ++ [task],
                            workload := m.workload + priority.value }) },
     Except.ok task)

/-- The loop body of `update_task_status`: overwrite the status of the first
task with the given id (then `break`); no effect when no id matches. -/
def setStatus (task_id : Int) (new_status : String) : List Task → List Task
  | [] => []
  | t :: ts =>
    if t.id = task_id then { t with status := new_status } :: ts
    else t :: setStatus task_id new_status ts

/-- `TaskManager.update_task_status`: silent no-op when the id is unknown. -/
def TaskManager.update_task_status (tm : TaskManager) (task_id : Int)
    (new_status : String) : TaskManager :=
  { tm with tasks := setStatus task_id new_status tm.tasks }

/-- `TaskManager.get_tasks_by_priority`. -/
def TaskManager.get_tasks_by_priority (tm : TaskManager) (priority : Priority) :
    List Task :=
  tm.tasks.filter (fun t => t.priority == priority)

instance : BEq Priority := ⟨fun a b => decide (a = b)⟩

/-- `TaskManager.get_upcoming_deadlines`; `today` is the ambient
`datetime.date.today()` at call time. The first line of the source computes
`today + datetime.timedelta(days=days)`, which raises `OverflowError` when
the target date is not representable (modelled as `Except.error`); otherwise
the tasks whose deadline lies in the inclusive range are returned. -/
def TaskManager.get_upcoming_deadlines (tm : TaskManager) (today : Date)
    (days : Int) : Except String (List Task) :=
  match today.addDaysChecked days with
  | none => Except.error ("date value out of range")
  | some deadline =>
    Except.ok (tm.tasks.filter (fun t =>
      Date.ble today t.deadline && Date.ble t.deadline deadline))

/-- The descending composite sort key of `generate_to_do_list`:
`a` may come before `b` iff (priority.value, deadline) of `a` is
lexicographically ≥ that of `b`. -/
def Task.todoGe (a b : Task) : Prop :=
  b.priority.value < a.priority.value ∨
    (a.priority.value = b.priority.value ∧ Date.le b.deadline a.deadline)

instance (a b : Task) : Decidable (Task.todoGe a b) := by
  unfold Task.todoGe; infer_instance

/-- Boolean form of `Task.todoGe`, handed to the stable sort. -/
def todoKeyGE (a b : Task) : Bool := decide (Task.todoGe a b)

/-- `TaskManager.generate_to_do_list`: Python
`sorted(member.tasks, key=lambda x: (x.priority.value, x.deadline), reverse=True)`
is a stable descending sort, modelled by the stable `List.mergeSort` applied
to the "greater or equal key" comparison. -/
def TaskManager.generate_to_do_list (tm : TaskManager) (team_member : String) :
    List Task :=
  match findMember tm.team_members team_member with
  | some m => m.tasks.mergeSort todoKeyGE
  | none => []

/-- The fold computed by Python `min(xs, key=lambda x: x.workload)` starting
from a first candidate: keeps the current best unless a later element is
strictly smaller, so the first minimum wins. -/
def minBy : List TeamMember → TeamMember → TeamMember
  | [], best => best
  | x :: xs, best => minBy xs (if x.workload < best.workload then x else best)

/-- `min(self.team_members.values(), key=lambda x: x.workload)`;
`none` models the `ValueError` raised on an empty sequence. -/
def minByWorkload : List TeamMember → Option TeamMember
  | [] => none
  | m :: ms => some (minBy ms m)

/-- `TaskManager.allocate_task`: assigns `task` to the least-loaded member
(first such in registration order). The task is *not* added to the global
task list. With no members, `min()` raises, modelled as `Except.error`. -/
def TaskManager.allocate_task (tm : TaskManager) (task : Task) :
    TaskManager × Except String Task :=
  match minByWorkload tm.team_members with
  | none => (tm, Except.error ("min() arg is an empty sequence"))
  | some m =>
    let task1 := { task with assigned_to := m.name }
    let f := fun mm => { mm with tasks := mm.tasks ++ [task1],
                                 workload := mm.workload + task1.priority.value }
    ({ tm with team_members := updateMember tm.team_members m.name f },
     Except.ok task1)

/-- `TaskManager.add_team_member`: registers a fresh member with workload 0
and an empty task list; raises when the name is already registered. -/
def TaskManager.add_team_member (tm : TaskManager) (name email : String) :
    TaskManager × Except String Unit :=
  if (findMember tm.team_members name).isNone then
    ({ tm with team_members := tm.team_members ++ [⟨name, email, [], 0⟩] },
     Except.ok ())
  else
    (tm, Except.error ("Team member " ++ name ++ " already exists"))

/-- The character of a decimal digit (`n` is taken mod 10). -/
def digitChar (n : Nat) : Char :=
  match n % 10 with
  | 0 => '0'
  | 1 => '1'
  | 2 => '2'
  | 3 => '3'
  | 4 => '4'
  | 5 => '5'
  | 6 => '6'
  | 7 => '7'
  | 8 => '8'
  | _ => '9'

/-- Two-digit zero-padded decimal rendering (`"%02d"`). -/
def pad2 (n : Nat) : List Char := [digitChar (n / 10), digitChar n]

/-- Four-digit zero-padded decimal rendering (`"%04d"`). -/
def pad4 (n : Nat) : List Char :=
  [digitChar (n / 1000), digitChar (n / 100), digitChar (n / 10), digitChar n]

/-- Six-digit zero-padded decimal rendering (`"%06d"`). -/
def pad6 (n : Nat) : List Char :=
  [digitChar (n / 100000), digitChar (n / 10000), digitChar (n / 1000),
   digitChar (n / 100), digitChar (n / 10), digitChar n]

/-- Numeric value of a digit character. -/
def digitVal (c : Char) : Nat := c.toNat - 48

/-- Read exactly two decimal digits. -/
def parse2 : List Char → Option (Nat × List Char)
  | c1 :: c2 :: rest =>
    if c1.isDigit && c2.isDigit then
      some (digitVal c1 * 10 + digitVal c2, rest)
    else none
  | _ => none

/-- Read exactly four decimal digits. -/
def parse4 : List Char → Option (Nat × List Char)
  | c1 :: c2 :: c3 :: c4 :: rest =>
    if c1.isDigit && c2.isDigit && c3.isDigit && c4.isDigit then
      some (((digitVal c1 * 10 + digitVal c2) * 10 + digitVal c3) * 10 + digitVal c4, rest)
    else none
  | _ => none

/-- Read exactly six decimal digits. -/
def parse6 : List Char → Option (Nat × List Char)
  | c1 :: c2 :: c3 :: c4 :: c5 :: c6 :: rest =>
    if c1.isDigit && c2.isDigit && c3.isDigit && c4.isDigit && c5.isDigit && c6.isDigit then
      some (((((digitVal c1 * 10 + digitVal c2) * 10 + digitVal c3) * 10 + digitVal c4) * 10
        + digitVal c5) * 10 + digitVal c6, rest)
    else none
  | _ => none

/-- A calendar-valid Python date (Python years run 1..9999). -/
def Date.Valid (d : Date) : Prop :=
  1 ≤ d.year ∧ d.year ≤ 9999 ∧ 1 ≤ d.month ∧ d.month ≤ 12 ∧
    1 ≤ d.day ∧ d.day ≤ daysInMonth d.year d.month

instance (d : Date) : Decidable d.Valid := by
  unfold Date.Valid; infer_instance

/-- `date.isoformat()` as a character list: `YYYY-MM-DD`. -/
def Date.isoformatL (d : Date) : List Char :=
  pad4 d.year.toNat ++ ('-' :: (pad2 d.month ++ ('-' :: pad2 d.day)))

/-- `date.isoformat()`. -/
def Date.isoformat (d : Date) : String := ⟨d.isoformatL⟩

/-- `date.fromisoformat` on a character list: requires exactly `YYYY-MM-DD`
and a calendar-valid result; `none` models `ValueError`. -/
def Date.fromisoformatL (l : List Char) : Option Date :=
  match parse4 l with
  | some (y, r1) =>
    match r1 with
    | '-' :: r2 =>
      match parse2 r2 with
      | some (m, r3) =>
        match r3 with
        | '-' :: r4 =>
          match parse2 r4 with
          | some (d, r5) =>
            match r5 with
            | [] =>
              let dt : Date := ⟨(y : Int), m, d⟩
              if dt.Valid then some dt else none
            | _ => none
          | none => none
        | _ => none
      | none => none
    | _ => none
  | none => none

/-- `date.fromisoformat`. -/
def Date.fromisoformat (s : String) : Option Date := Date.fromisoformatL s.data

/-- A valid Python datetime: valid date, time fields in range. -/
def DateTime.Valid (t : DateTime) : Prop :=
  t.date.Valid ∧ t.hour ≤ 23 ∧ t.minute ≤ 59 ∧ t.second ≤ 59 ∧ t.microsecond ≤ 999999

instance (t : DateTime) : Decidable t.Valid := by
  unfold DateTime.Valid; infer_instance

/-- `datetime.isoformat()` as a character list: the date's `YYYY-MM-DD`
followed by `THH:MM:SS[.ffffff]`, the microseconds part omitted when zero. -/
def DateTime.isoformatL (t : DateTime) : List Char :=
  pad4 t.date.year.toNat ++ ('-' :: (pad2 t.date.month ++ ('-' :: (pad2 t.date.day ++
    ('T' :: (pad2 t.hour ++ (':' :: (pad2 t.minute ++ (':' :: (pad2 t.second ++
      (if t.microsecond = 0 then [] else '.' :: pad6 t.microsecond)))))))))))

/-- `datetime.isoformat()`. -/
def DateTime.isoformat (t : DateTime) : String := ⟨t.isoformatL⟩

/-- `datetime.fromisoformat` on a character list, for the shapes that
`isoformat` emits; `none` models `ValueError`. -/
def DateTime.fromisoformatL (l : List Char) : Option DateTime :=
  match parse4 l with
  | some (y, r1) =>
    match r1 with
    | '-' :: r2 =>
      match parse2 r2 with
      | some (mo, r3) =>
        match r3 with
        | '-' :: r4 =>
          match parse2 r4 with
          | some (d, r5) =>
            match r5 with
            | 'T' :: r6 =>
              match parse2 r6 with
              | some (h, r7) =>
                match r7 with
                | ':' :: r8 =>
                  match parse2 r8 with
                  | some (mi, r9) =>
                    match r9 with
                    | ':' :: r10 =>
                      match parse2 r10 with
                      | some (s, r11) =>
                        let mk := fun (us : Nat) =>
                          let dt : DateTime := ⟨⟨(y : Int), mo, d⟩, h, mi, s, us⟩
                          if dt.Valid then some dt else none
                        match r11 with
                        | [] => mk 0
                        | '.' :: r12 =>
                          match parse6 r12 with
                          | some (us, r13) =>
                            match r13 with
                            | [] => mk us
                            | _ => none
                          | none => none
                        | _ => none
                      | none => none
                    | _ => none
                  | none => none
                | _ => none
              | none => none
            | _ => none
          | none => none
        | _ => none
      | none => none
    | _ => none
  | none => none

/-- `datetime.fromisoformat`. -/
def DateTime.fromisoformat (s : String) : Option DateTime :=
  DateTime.fromisoformatL s.data

/-- A row of the sqlite `tasks` table, as written by `save_data`. -/
structure TaskRow where
  id : Int
  title : String
  description : String
  deadline : String
  priority : String
  assigned_to : String
  status : String
  created_at : String
  deriving DecidableEq

/-- A row of the sqlite `team_members` table, as written by `save_data`. -/
structure TeamMemberRow where
  name : String
  email : String
  workload : Int
  deriving DecidableEq

/-- The row `save_data` inserts for a task: deadline and created_at as
ISO-8601 text, priority as its symbolic name. -/
def Task.toRow (t : Task) : TaskRow :=
  ⟨t.id, t.title, t.description, t.deadline.isoformat, t.priority.name,
   t.assigned_to, t.status, t.created_at.isoformat⟩

/-- The row `save_data` inserts for a member: note the member's task list is
not stored. -/
def TeamMember.toRow (m : TeamMember) : TeamMemberRow :=
  ⟨m.name, m.email, m.workload⟩

/-- `TaskManager.save_data`: full snapshot of both collections as rows. -/
def TaskManager.save_data (tm : TaskManager) : List TaskRow × List TeamMemberRow :=
  (tm.tasks.map Task.toRow, tm.team_members.map TeamMember.toRow)

/-- Rebuild one `Task` from a stored row, parsing the ISO text and the
priority name; `none` models the exception on malformed data. -/
def Task.fromRow (r : TaskRow) : Option Task :=
  match Date.fromisoformat r.deadline, Priority.fromName r.priority,
      DateTime.fromisoformat r.created_at with
  | some dl, some p, some ca =>
    some ⟨r.id, r.title, r.description, dl, p, r.assigned_to, r.status, ca⟩
  | _, _, _ => none

/-- The `load_data` loop over task rows. -/
def loadTasks : List TaskRow → Option (List Task)
  | [] => some []
  | r :: rs =>
    match Task.fromRow r, loadTasks rs with
    | some t, some ts => some (t :: ts)
    | _, _ => none

/-- Rebuild one `TeamMember` from a stored row: `load_data` constructs
`TeamMember(name=row[0], email=row[1], workload=row[2])`, so the task list
comes back empty. -/
def TeamMember.fromRow (r : TeamMemberRow) : TeamMember :=
  ⟨r.name, r.email, [], r.workload⟩

/-- `TaskManager.load_data`: rebuild the in-memory state from the rows. -/
def load_data (s : List TaskRow × List TeamMemberRow) : Option TaskManager :=
  match loadTasks s.1 with
  | none => none
  | some ts => some ⟨ts, s.2.map TeamMember.fromRow⟩

/-- The argument tuple of one `add_task` call (with its ambient clock). -/
structure AddCall where
  title : String
  description : String
  deadline : Date
  priority : Priority
  assigned_to : String
  now : DateTime
  deriving DecidableEq

/-- Perform one `add_task` call. -/
def doAdd (tm : TaskManager) (c : AddCall) : TaskManager × Except String Task :=
  tm.add_task c.title c.description c.deadline c.priority c.assigned_to c.now

/-- Run a sequence of `add_task` calls, collecting the ids of the tasks
returned by the successful calls, in order. -/
def runAdds : TaskManager → List AddCall → TaskManager × List Int
  | tm, [] => (tm, [])
  | tm, c :: cs =>
    let r := doAdd tm c
    let rest := runAdds r.1 cs
    (rest.1, (match r.2 with | Except.ok t => [t.id] | Except.error _ => []) ++ rest.2)

/-- The id sequence `k+1, k+2, ..., k+n` as integers. -/
def idsFrom (k : Nat) : Nat → List Int
  | 0 => []
  | n + 1 => ((k + 1 : Nat) : Int) :: idsFrom (k + 1) n

/-- One mutating operation of the workload invariant claim. -/
inductive Op where
  | add : AddCall → Op
  | alloc : Task → Op
  deriving DecidableEq

/-- Apply one operation to the state (exceptions are caught by the caller:
the state reached at the moment of the raise is kept). -/
def applyOp (tm : TaskManager) : Op → TaskManager
  | Op.add c => (doAdd tm c).1
  | Op.alloc t => (tm.allocate_task t).1

/-- Run a sequence of operations. -/
def runOps (tm : TaskManager) (ops : List Op) : TaskManager :=
  ops.foldl applyOp tm

/-- The workload invariant: every member's `workload` field equals the sum
of `priority.value` over that member's task list. -/
def TaskManager.WF (tm : TaskManager) : Prop :=
  ∀ m ∈ tm.team_members, m.workload = (m.tasks.map (fun t => t.priority.value)).sum

instance (tm : TaskManager) : Decidable tm.WF := by
  unfold TaskManager.WF; infer_instance

instance {ε α : Type} [DecidableEq ε] [DecidableEq α] :
    DecidableEq (Except ε α) := fun a b =>
  match a, b with
  | Except.ok x, Except.ok y =>
    if h : x = y then isTrue (congrArg Except.ok h)
    else isFalse (fun he => h (Except.ok.inj he))
  | Except.error x, Except.error y =>
    if h : x = y then isTrue (congrArg Except.error h)
    else isFalse (fun he => h (Except.error.inj he))
  | Except.ok _, Except.error _ => isFalse (fun he => Except.noConfusion he)
  | Except.error _, Except.ok _ => isFalse (fun he => Except.noConfusion he)

/-- Whether an operation completed normally (`Except.ok`), as opposed to
raising an exception (`Except.error`). -/
def isOkE {ε α : Type} : Except ε α → Bool
  | Except.ok _ => true
  | Except.error _ => false

/-! Concrete sample data for witnesses and counterexamples. -/

/-- A sample creation timestamp. -/
def sampleNow : DateTime := ⟨⟨2024, 1, 2⟩, 10, 30, 5, 0⟩

/-- Sample task (MEDIUM, due 2024-01-10), as in the specification example. -/
def sampleTask1 : Task :=
  ⟨1, "t1", "d1", ⟨2024, 1, 10⟩, Priority.MEDIUM, "Alice", "Not Started", sampleNow⟩

/-- Sample task (HIGH, due 2024-01-05). -/
def sampleTask2 : Task :=
  ⟨2, "t2", "d2", ⟨2024, 1, 5⟩, Priority.HIGH, "Alice", "Not Started", sampleNow⟩

/-- Sample task (HIGH, due 2024-01-20). -/
def sampleTask3 : Task :=
  ⟨3, "t3", "d3", ⟨2024, 1, 20⟩, Priority.HIGH, "Alice", "Not Started", sampleNow⟩

/-- Sample member holding the three sample tasks (workload 2 + 3 + 3). -/
def sampleAlice : TeamMember :=
  ⟨"Alice", "alice@example.com", [sampleTask1, sampleTask2, sampleTask3], 8⟩

/-- Sample manager state around `sampleAlice`. -/
def sampleTM : TaskManager :=
  ⟨[sampleTask1, sampleTask2, sampleTask3], [sampleAlice]⟩

/-- Sample member with no tasks and workload 5. -/
def sampleBob : TeamMember := ⟨"Bob", "bob@example.com", [], 5⟩

/-- Sample member with no tasks and workload 2. -/
def sampleCarol : TeamMember := ⟨"Carol", "carol@example.com", [], 2⟩

/-- A sample `add_task` call assigning to Alice. -/
def sampleCall : AddCall :=
  ⟨"t", "d", ⟨2024, 3, 1⟩, Priority.LOW, "Alice", sampleNow⟩

/-- The empty manager state. -/
def emptyTM : TaskManager := ⟨[], []⟩

/-! Ordering lemmas for `Date`. -/

theorem Date.ble_iff (a b : Date) : Date.ble a b = true ↔ Date.le a b := by
  simp [Date.ble]

theorem Date.le_refl (a : Date) : Date.le a a := by
  simp [Date.le]

theorem Date.le_trans {a b c : Date} (h1 : Date.le a b) (h2 : Date.le b c) :
    Date.le a c := by
  cases a; cases b; cases c
  simp only [Date.le] at *
  omega

theorem Date.le_antisymm {a b : Date} (h1 : Date.le a b) (h2 : Date.le b a) :
    a = b := by
  cases a; cases b
  simp only [Date.le, Date.mk.injEq] at *
  omega

theorem Date.le_lt_asymm {a b : Date} (h1 : Date.le a b) (h2 : Date.lt b a) :
    False := by
  cases a; cases b
  simp only [Date.le, Date.lt] at *
  omega

theorem Date.lt_trans' {a b c : Date} (h1 : Date.lt a b) (h2 : Date.lt b c) :
    Date.lt a c := by
  cases a; cases b; cases c
  simp only [Date.lt] at *
  omega

theorem Date.lt_nextDay (d : Date) : Date.lt d d.nextDay := by
  unfold Date.nextDay
  split
  · simp only [Date.lt, true_and]; omega
  · split
    · simp only [Date.lt, true_and]; omega
    · simp only [Date.lt, true_and]; omega

theorem Date.predDay_lt (d : Date) : Date.lt d.predDay d := by
  unfold Date.predDay
  split
  · rename_i h; simp only [Date.lt, true_and]; omega
  · split
    · rename_i h h2; simp only [Date.lt, true_and]; omega
    · simp only [Date.lt, true_and]; omega

theorem iterApply_predDay_lt (n : Nat) (d : Date) :
    Date.lt (iterApply Date.predDay (n + 1) d) d := by
  induction n generalizing d with
  | zero => simpa [iterApply] using Date.predDay_lt d
  | succ n ih =>
    have h1 : iterApply Date.predDay (n + 2) d
        = iterApply Date.predDay (n + 1) (Date.predDay d) := rfl
    rw [h1]
    exact Date.lt_trans' (ih (Date.predDay d)) (Date.predDay_lt d)

theorem Date.addDays_zero (d : Date) : d.addDays 0 = d := by
  simp [Date.addDays, iterApply]

theorem Date.addDays_neg_lt (d : Date) (k : Int) (hk : k < 0) :
    Date.lt (d.addDays k) d := by
  unfold Date.addDays
  rw [if_neg (by omega)]
  have h : (-k).toNat = ((-k).toNat - 1) + 1 := by omega
  rw [h]
  exact iterApply_predDay_lt _ d

theorem addDaysChecked_some (d : Date) (k : Int) (r : Date)
    (h : d.addDaysChecked k = some r) : r = d.addDays k := by
  by_cases hc : Date.le ⟨1, 1, 1⟩ (d.addDays k) ∧ Date.le (d.addDays k) ⟨9999, 12, 31⟩
  · simp only [Date.addDaysChecked, if_pos hc] at h
    exact (Option.some.inj h).symm
  · simp only [Date.addDaysChecked, if_neg hc] at h
    exact Option.noConfusion h

/-! Lemmas about the descending to-do sort key. -/

theorem todoKeyGE_total (a b : Task) : (todoKeyGE a b || todoKeyGE b a) = true := by
  simp only [todoKeyGE, Bool.or_eq_true, decide_eq_true_eq]
  unfold Task.todoGe Date.le
  omega

theorem todoKeyGE_trans (a b c : Task) (h1 : todoKeyGE a b = true)
    (h2 : todoKeyGE b c = true) : todoKeyGE a c = true := by
  simp only [todoKeyGE, decide_eq_true_eq] at *
  unfold Task.todoGe Date.le at *
  omega

/-! Round-trip lemmas for the ISO-8601 serialization. -/

theorem digitChar_spec (n : Nat) :
    digitVal (digitChar n) = n % 10 ∧ (digitChar n).isDigit = true := by
  unfold digitChar
  have h10 : n % 10 < 10 := Nat.mod_lt _ (by omega)
  generalize hk : n % 10 = k
  rw [hk] at h10
  interval_cases k <;> exact ⟨by decide, by decide⟩

theorem parse2_pad2 (n : Nat) (rest : List Char) (h : n < 100) :
    parse2 (pad2 n ++ rest) = some (n, rest) := by
  have h1 := digitChar_spec (n / 10)
  have h2 := digitChar_spec n
  simp only [pad2, List.cons_append, List.nil_append, parse2, h1.2, h2.2,
    Bool.and_self, if_true, h1.1, h2.1, Option.some.injEq, Prod.mk.injEq, and_true]
  omega

theorem parse4_pad4 (n : Nat) (rest : List Char) (h : n < 10000) :
    parse4 (pad4 n ++ rest) = some (n, rest) := by
  have h1 := digitChar_spec (n / 1000)
  have h2 := digitChar_spec (n / 100)
  have h3 := digitChar_spec (n / 10)
  have h4 := digitChar_spec n
  simp only [pad4, List.cons_append, List.nil_append, parse4, h1.2, h2.2, h3.2, h4.2,
    Bool.and_self, if_true, h1.1, h2.1, h3.1, h4.1, Option.some.injEq, Prod.mk.injEq,
    and_true]
  omega

theorem parse6_pad6 (n : Nat) (rest : List Char) (h : n < 1000000) :
    parse6 (pad6 n ++ rest) = some (n, rest) := by
  have h1 := digitChar_spec (n / 100000)
  have h2 := digitChar_spec (n / 10000)
  have h3 := digitChar_spec (n / 1000)
  have h4 := digitChar_spec (n / 100)
  have h5 := digitChar_spec (n / 10)
  have h6 := digitChar_spec n
  simp only [pad6, List.cons_append, List.nil_append, parse6, h1.2, h2.2, h3.2, h4.2,
    h5.2, h6.2, Bool.and_self, if_true, h1.1, h2.1, h3.1, h4.1, h5.1, h6.1,
    Option.some.injEq, Prod.mk.injEq, and_true]
  omega

theorem parse2_pad2_nil (n : Nat) (h : n < 100) : parse2 (pad2 n) = some (n, []) := by
  have e := parse2_pad2 n [] h
  rwa [List.append_nil] at e

theorem parse6_pad6_nil (n : Nat) (h : n < 1000000) :
    parse6 (pad6 n) = some (n, []) := by
  have e := parse6_pad6 n [] h
  rwa [List.append_nil] at e

theorem date_iso_roundtrip (d : Date) (h : d.Valid) :
    Date.fromisoformat d.isoformat = some d := by
  obtain ⟨hy1, hy2, hm1, hm2, hd1, hd2⟩ := h
  have hdim : daysInMonth d.year d.month ≤ 31 := by
    unfold daysInMonth
    split
    · split <;> omega
    · split <;> omega
  have hy : d.year.toNat < 10000 := by omega
  have hyy : ((d.year.toNat : Nat) : Int) = d.year := by omega
  have hvalid : (⟨((d.year.toNat : Nat) : Int), d.month, d.day⟩ : Date).Valid := by
    rw [hyy]
    exact ⟨hy1, hy2, hm1, hm2, hd1, hd2⟩
  have e4 := parse4_pad4 d.year.toNat ('-' :: (pad2 d.month ++ ('-' :: pad2 d.day))) hy
  have e2 := parse2_pad2 d.month ('-' :: pad2 d.day) (by omega)
  have e3 := parse2_pad2_nil d.day (by omega)
  show Date.fromisoformatL (Date.isoformatL d) = some d
  unfold Date.isoformatL Date.fromisoformatL
  simp only [e4, e2, e3, hvalid, if_true, Option.some.injEq]
  rw [Date.mk.injEq]
  exact ⟨hyy, rfl, rfl⟩

theorem dateTime_iso_roundtrip (t : DateTime) (h : t.Valid) :
    DateTime.fromisoformat t.isoformat = some t := by
  obtain ⟨⟨ty, tmo, tda⟩, th, tmi, ts, tus⟩ := t
  obtain ⟨⟨hy1, hy2, hm1, hm2, hd1, hd2⟩, hh, hmi, hs, hus⟩ := h
  dsimp only at hy1 hy2 hm1 hm2 hd1 hd2 hh hmi hs hus
  have hdim : daysInMonth ty tmo ≤ 31 := by
    unfold daysInMonth
    split
    · split <;> omega
    · split <;> omega
  have hy : ty.toNat < 10000 := by omega
  have hyy : ((ty.toNat : Nat) : Int) = ty := by omega
  show DateTime.fromisoformatL
    (DateTime.isoformatL ⟨⟨ty, tmo, tda⟩, th, tmi, ts, tus⟩) =
    some ⟨⟨ty, tmo, tda⟩, th, tmi, ts, tus⟩
  unfold DateTime.isoformatL DateTime.fromisoformatL
  by_cases hz : tus = 0
  · have e4 := parse4_pad4 ty.toNat ('-' :: (pad2 tmo ++ ('-' ::
      (pad2 tda ++ ('T' :: (pad2 th ++ (':' :: (pad2 tmi ++ (':' ::
      pad2 ts))))))))) hy
    have eMo := parse2_pad2 tmo ('-' :: (pad2 tda ++ ('T' ::
      (pad2 th ++ (':' :: (pad2 tmi ++ (':' :: pad2 ts))))))) (by omega)
    have eDay := parse2_pad2 tda ('T' :: (pad2 th ++ (':' ::
      (pad2 tmi ++ (':' :: pad2 ts))))) (by omega)
    have eH := parse2_pad2 th (':' :: (pad2 tmi ++ (':' :: pad2 ts))) (by omega)
    have eMi := parse2_pad2 tmi (':' :: pad2 ts) (by omega)
    have eS := parse2_pad2_nil ts (by omega)
    simp only [hz, if_true, List.append_nil, e4, eMo, eDay, eH, eMi, eS]
    rw [hyy]
    have hvalid : (⟨⟨ty, tmo, tda⟩, th, tmi, ts, 0⟩ : DateTime).Valid :=
      ⟨⟨hy1, hy2, hm1, hm2, hd1, hd2⟩, hh, hmi, hs, Nat.zero_le _⟩
    rw [if_pos hvalid]
  · have e4 := parse4_pad4 ty.toNat ('-' :: (pad2 tmo ++ ('-' ::
      (pad2 tda ++ ('T' :: (pad2 th ++ (':' :: (pad2 tmi ++ (':' ::
      (pad2 ts ++ ('.' :: pad6 tus))))))))))) hy
    have eMo := parse2_pad2 tmo ('-' :: (pad2 tda ++ ('T' ::
      (pad2 th ++ (':' :: (pad2 tmi ++ (':' :: (pad2 ts ++
      ('.' :: pad6 tus))))))))) (by omega)
    have eDay := parse2_pad2 tda ('T' :: (pad2 th ++ (':' ::
      (pad2 tmi ++ (':' :: (pad2 ts ++ ('.' :: pad6 tus))))))) (by omega)
    have eH := parse2_pad2 th (':' :: (pad2 tmi ++ (':' ::
      (pad2 ts ++ ('.' :: pad6 tus))))) (by omega)
    have eMi := parse2_pad2 tmi (':' :: (pad2 ts ++ ('.' :: pad6 tus))) (by omega)
    have eS := parse2_pad2 ts ('.' :: pad6 tus) (by omega)
    have eUs := parse6_pad6_nil tus (by omega)
    simp only [hz, if_false, e4, eMo, eDay, eH, eMi, eS, eUs]
    rw [hyy]
    have hvalid : (⟨⟨ty, tmo, tda⟩, th, tmi, ts, tus⟩ : DateTime).Valid :=
      ⟨⟨hy1, hy2, hm1, hm2, hd1, hd2⟩, hh, hmi, hs, hus⟩
    rw [if_pos hvalid]

theorem Priority.fromName_name (p : Priority) : Priority.fromName p.name = some p := by
  cases p <;> decide

theorem task_row_roundtrip (t : Task) (hd : t.deadline.Valid) (hc : t.created_at.Valid) :
    Task.fromRow t.toRow = some t := by
  unfold Task.fromRow Task.toRow
  rw [date_iso_roundtrip t.deadline hd, Priority.fromName_name,
    dateTime_iso_roundtrip t.created_at hc]

theorem loadTasks_save (ts : List Task)
    (h : ∀ t ∈ ts, t.deadline.Valid ∧ t.created_at.Valid) :
    loadTasks (ts.map Task.toRow) = some ts := by
  induction ts with
  | nil => rfl
  | cons t ts ih =>
    have ht := h t (List.mem_cons_self t ts)
    simp only [List.map_cons, loadTasks,
      task_row_roundtrip t ht.1 ht.2,
      ih (fun x hx => h x (List.mem_cons_of_mem t hx))]

/-! Helper lemmas about the member dictionary and the task list. -/

theorem updateMember_pres (P : TeamMember → Prop) (ms : List TeamMember) (n : String)
    (f : TeamMember → TeamMember) (h : ∀ m ∈ ms, P m)
    (hf : ∀ m ∈ ms, P m → P (f m)) :
    ∀ m ∈ updateMember ms n f, P m := by
  induction ms with
  | nil => intro m hm; simp [updateMember] at hm
  | cons x xs ih =>
    intro m hm
    unfold updateMember at hm
    by_cases hx : x.name = n
    · rw [if_pos hx] at hm
      rcases List.mem_cons.mp hm with h1 | h2
      · rw [h1]; exact hf x (by simp) (h x (by simp))
      · exact h m (List.mem_cons_of_mem x h2)
    · rw [if_neg hx] at hm
      rcases List.mem_cons.mp hm with h1 | h2
      · rw [h1]; exact h x (by simp)
      · exact ih (fun y hy => h y (List.mem_cons_of_mem x hy))
          (fun y hy => hf y (List.mem_cons_of_mem x hy)) m h2

theorem updateMember_append (l₁ : List TeamMember) (m : TeamMember)
    (l₂ : List TeamMember) (f : TeamMember → TeamMember)
    (h : ∀ x ∈ l₁, x.name ≠ m.name) :
    updateMember (l₁ ++ m :: l₂) m.name f = l₁ ++ f m :: l₂ := by
  induction l₁ with
  | nil => simp [updateMember]
  | cons x xs ih =>
    have hx : x.name ≠ m.name := h x (by simp)
    simp only [List.cons_append, updateMember, if_neg hx, List.append_eq]
    rw [ih (fun y hy => h y (List.mem_cons_of_mem x hy))]

theorem updateMember_names (ms : List TeamMember) (n : String)
    (f : TeamMember → TeamMember) (hf : ∀ m, (f m).name = m.name) :
    (updateMember ms n f).map TeamMember.name = ms.map TeamMember.name := by
  induction ms with
  | nil => rfl
  | cons x xs ih =>
    unfold updateMember
    by_cases hx : x.name = n
    · rw [if_pos hx]; simp [hf]
    · rw [if_neg hx]; simp [ih]

theorem findMember_isSome_iff (ms : List TeamMember) (n : String) :
    (findMember ms n).isSome = true ↔ n ∈ ms.map TeamMember.name := by
  unfold findMember
  rw [List.find?_isSome]
  constructor
  · rintro ⟨x, hx, he⟩
    simp only [decide_eq_true_eq] at he
    exact he ▸ List.mem_map_of_mem TeamMember.name hx
  · intro hmem
    rcases List.mem_map.mp hmem with ⟨x, hx, he⟩
    exact ⟨x, hx, by simp [he]⟩

theorem setStatus_not_found (task_id : Int) (new_status : String) (ts : List Task)
    (h : ∀ t ∈ ts, t.id ≠ task_id) : setStatus task_id new_status ts = ts := by
  induction ts with
  | nil => rfl
  | cons t ts ih =>
    unfold setStatus
    rw [if_neg (h t (by simp))]
    rw [ih (fun x hx => h x (List.mem_cons_of_mem t hx))]

theorem setStatus_found (task_id : Int) (new_status : String) (l₁ : List Task)
    (t : Task) (l₂ : List Task) (h1 : ∀ x ∈ l₁, x.id ≠ task_id)
    (h2 : t.id = task_id) :
    setStatus task_id new_status (l₁ ++ t :: l₂)
      = l₁ ++ { t with status := new_status } :: l₂ := by
  induction l₁ with
  | nil => simp [setStatus, if_pos h2]
  | cons x xs ih =>
    simp only [List.cons_append, setStatus, if_neg (h1 x (by simp)), List.append_eq]
    rw [ih (fun y hy => h1 y (List.mem_cons_of_mem x hy))]

theorem minBy_spec (xs : List TeamMember) (best : TeamMember) :
    (minBy xs best).workload ≤ best.workload ∧
    ∃ l₁ l₂, best :: xs = l₁ ++ minBy xs best :: l₂ ∧
      (∀ x ∈ l₁, (minBy xs best).workload < x.workload) ∧
      (∀ x ∈ l₂, (minBy xs best).workload ≤ x.workload) := by
  induction xs generalizing best with
  | nil => exact ⟨le_refl _, [], [], rfl, by simp, by simp⟩
  | cons x xs ih =>
    by_cases hx : x.workload < best.workload
    · have hmin : minBy (x :: xs) best
          = minBy xs (if x.workload < best.workload then x else best) := rfl
      rw [if_pos hx] at hmin
      obtain ⟨hacc, l₁, l₂, hdec, hlt, hle⟩ := ih x
      rw [hmin]
      refine ⟨by omega, best :: l₁, l₂, ?_, ?_, hle⟩
      · rw [List.cons_append, ← hdec]
      · intro y hy
        rcases List.mem_cons.mp hy with h1 | h2
        · rw [h1]; omega
        · exact hlt y h2
    · have hmin : minBy (x :: xs) best
          = minBy xs (if x.workload < best.workload then x else best) := rfl
      rw [if_neg hx] at hmin
      obtain ⟨hacc, l₁, l₂, hdec, hlt, hle⟩ := ih best
      rw [hmin]
      cases l₁ with
      | nil =>
        rw [List.nil_append] at hdec
        injection hdec with e1 e2
        refine ⟨hacc, [], x :: xs, ?_, by simp, ?_⟩
        · rw [List.nil_append, ← e1]
        · intro y hy
          rcases List.mem_cons.mp hy with hy1 | hy2
          · rw [hy1, ← e1]; omega
          · rw [e2] at hy2
            exact hle y hy2
      | cons b l₁t =>
        rw [List.cons_append] at hdec
        injection hdec with e1 e2
        refine ⟨hacc, best :: x :: l₁t, l₂, ?_, ?_, hle⟩
        · rw [List.cons_append, List.cons_append, ← e2]
        · intro y hy
          have hb : (minBy xs best).workload < b.workload := hlt b (by simp)
          rcases List.mem_cons.mp hy with hy1 | hy2
          · rw [hy1, ← e1] at *; omega
          · rcases List.mem_cons.mp hy2 with hy3 | hy4
            · rw [hy3, ← e1] at *; omega
            · exact hlt y (List.mem_cons_of_mem b hy4)

theorem nodup_decomp_names (l₁ : List TeamMember) (m : TeamMember)
    (l₂ : List TeamMember)
    (h : ((l₁ ++ m :: l₂).map TeamMember.name).Nodup) :
    ∀ x ∈ l₁, x.name ≠ m.name := by
  intro x hx he
  rw [List.map_append] at h
  rcases List.nodup_append.mp h with ⟨h1, h2, h3⟩
  exact h3 (List.mem_map_of_mem _ hx) (by simp [he])

/-! Lemmas for the id-assignment trace. -/

theorem foldl_max_idsFrom (n k : Nat) (a : Int) (ha : a ≤ (k : Int)) :
    List.foldl max a (idsFrom k n) = if n = 0 then a else ((k + n : Nat) : Int) := by
  induction n generalizing k a with
  | zero => rfl
  | succ n ih =>
    unfold idsFrom
    simp only [List.foldl_cons]
    have ha2 : max a (((k + 1 : Nat) : Nat) : Int) = (((k + 1 : Nat) : Nat) : Int) := by
      omega
    rw [ha2, ih (k + 1) _ (by omega)]
    rw [if_neg (Nat.succ_ne_zero n)]
    by_cases hn : n = 0
    · rw [if_pos hn]; omega
    · rw [if_neg hn]; omega

theorem nextId_idsFrom (tm : TaskManager) (k : Nat)
    (h : tm.tasks.map (fun t => t.id) = idsFrom 0 k) :
    tm.nextId = ((k + 1 : Nat) : Int) := by
  unfold TaskManager.nextId
  rw [h]
  cases k with
  | zero => rfl
  | succ k =>
    simp only [idsFrom, pyMax]
    rw [foldl_max_idsFrom k (0 + 1) _ (by omega)]
    by_cases hk : k = 0
    · rw [if_pos hk]; omega
    · rw [if_neg hk]; omega

theorem idsFrom_mem (k n : Nat) :
    ∀ i ∈ idsFrom k n, (k : Int) < i ∧ i ≤ ((k + n : Nat) : Int) := by
  induction n generalizing k with
  | zero => intro i hi; simp [idsFrom] at hi
  | succ n ih =>
    intro i hi
    unfold idsFrom at hi
    rcases List.mem_cons.mp hi with h1 | h2
    · rw [h1]; constructor <;> omega
    · have := ih (k + 1) i h2
      omega

theorem idsFrom_pairwise (k n : Nat) : (idsFrom k n).Pairwise (· < ·) := by
  induction n generalizing k with
  | zero => exact List.Pairwise.nil
  | succ n ih =>
    unfold idsFrom
    refine List.Pairwise.cons ?_ (ih (k + 1))
    intro i hi
    have := idsFrom_mem (k + 1) n i hi
    omega

theorem idsFrom_snoc (n k : Nat) :
    idsFrom k n ++ [((k + n + 1 : Nat) : Int)] = idsFrom k (n + 1) := by
  induction n generalizing k with
  | zero => rfl
  | succ n ih =>
    show ((k + 1 : Nat) : Int) :: (idsFrom (k + 1) n ++ [((k + (n + 1) + 1 : Nat) : Int)])
      = ((k + 1 : Nat) : Int) :: idsFrom (k + 1) (n + 1)
    have harith : k + (n + 1) + 1 = (k + 1) + n + 1 := by omega
    rw [harith, ih (k + 1)]

theorem doAdd_names (tm : TaskManager) (c : AddCall) :
    ((doAdd tm c).1).team_members.map TeamMember.name
      = tm.team_members.map TeamMember.name := by
  unfold doAdd TaskManager.add_task
  split
  · rfl
  · exact updateMember_names _ _ _ (fun m => rfl)

theorem doAdd_tasks (tm : TaskManager) (c : AddCall) :
    (doAdd tm c).1.tasks = tm.tasks ++
      [⟨tm.nextId, c.title, c.description, c.deadline, c.priority, c.assigned_to,
        "Not Started", c.now⟩] := by
  unfold doAdd TaskManager.add_task
  split
  · rfl
  · rfl

theorem doAdd_ok (tm : TaskManager) (c : AddCall)
    (h : c.assigned_to ∈ tm.team_members.map TeamMember.name) :
    (doAdd tm c).2 = Except.ok
      ⟨tm.nextId, c.title, c.description, c.deadline, c.priority, c.assigned_to,
        "Not Started", c.now⟩ := by
  have hsome := (findMember_isSome_iff tm.team_members c.assigned_to).mpr h
  rcases Option.isSome_iff_exists.mp hsome with ⟨mm, hmm⟩
  unfold doAdd TaskManager.add_task
  rw [hmm]
  simp

theorem runAdds_spec (cs : List AddCall) (tm : TaskManager) (k : Nat)
    (hids : tm.tasks.map (fun t => t.id) = idsFrom 0 k)
    (hvalid : ∀ c ∈ cs, c.assigned_to ∈ tm.team_members.map TeamMember.name) :
    (runAdds tm cs).2 = idsFrom k cs.length ∧
      (runAdds tm cs).1.tasks.map (fun t => t.id) = idsFrom 0 (k + cs.length) := by
  induction cs generalizing tm k with
  | nil => exact ⟨rfl, by simpa using hids⟩
  | cons c cs ih =>
    have hc : c.assigned_to ∈ tm.team_members.map TeamMember.name := hvalid c (by simp)
    have hnext := nextId_idsFrom tm k hids
    have hids2 : (doAdd tm c).1.tasks.map (fun t => t.id) = idsFrom 0 (k + 1) := by
      rw [doAdd_tasks, List.map_append, hids]
      show idsFrom 0 k ++ [tm.nextId] = idsFrom 0 (k + 1)
      rw [hnext]
      have h0 : ((k + 1 : Nat) : Int) = ((0 + k + 1 : Nat) : Int) := by omega
      rw [h0, idsFrom_snoc k 0]
    have hvalid2 : ∀ x ∈ cs, x.assigned_to ∈
        (doAdd tm c).1.team_members.map TeamMember.name := by
      intro x hx
      rw [doAdd_names]
      exact hvalid x (List.mem_cons_of_mem c hx)
    obtain ⟨ih1, ih2⟩ := ih (doAdd tm c).1 (k + 1) hids2 hvalid2
    constructor
    · show (match (doAdd tm c).2 with
        | Except.ok t => [t.id] | Except.error _ => []) ++ (runAdds (doAdd tm c).1 cs).2
        = idsFrom k (cs.length + 1)
      rw [doAdd_ok tm c hc, ih1]
      show tm.nextId :: idsFrom (k + 1) cs.length = idsFrom k (cs.length + 1)
      rw [hnext]
      rfl
    · show (runAdds (doAdd tm c).1 cs).1.tasks.map (fun t => t.id)
        = idsFrom 0 (k + (cs.length + 1))
      rw [ih2]
      have harith : k + 1 + cs.length = k + (cs.length + 1) := by omega
      rw [harith]

/-! Preservation of the workload invariant. -/

theorem WF_doAdd (tm : TaskManager) (c : AddCall) (h : tm.WF) :
    ((doAdd tm c).1).WF := by
  unfold doAdd TaskManager.add_task
  split
  · exact h
  · intro m hm
    refine updateMember_pres
      (fun x => x.workload = (x.tasks.map (fun t => t.priority.value)).sum)
      tm.team_members _ _ h ?_ m hm
    intro x hx hPx
    simp only [List.map_append, List.sum_append, List.map_cons, List.map_nil,
      List.sum_cons, List.sum_nil, add_zero]
    rw [hPx]

theorem WF_alloc (tm : TaskManager) (t : Task) (h : tm.WF) :
    ((tm.allocate_task t).1).WF := by
  unfold TaskManager.allocate_task
  cases hm : minByWorkload tm.team_members with
  | none => exact h
  | some m =>
    intro x hx
    refine updateMember_pres
      (fun y => y.workload = (y.tasks.map (fun s => s.priority.value)).sum)
      tm.team_members _ _ h ?_ x hx
    intro y hy hPy
    simp only [List.map_append, List.sum_append, List.map_cons, List.map_nil,
      List.sum_cons, List.sum_nil, add_zero]
    rw [hPy]

theorem WF_runOps (ops : List Op) (tm : TaskManager) (h : tm.WF) :
    (runOps tm ops).WF := by
  induction ops generalizing tm with
  | nil => exact h
  | cons op ops ih =>
    cases op with
    | add c => exact ih _ (WF_doAdd tm c h)
    | alloc t => exact ih _ (WF_alloc tm t h)

theorem member_row_roundtrip (m : TeamMember) :
    TeamMember.fromRow m.toRow = { m with tasks := [] } := rfl

/-! The claims. -/

/-- C1 counterexample: the claim states that `add_task` with an unknown
`assigned_to` leaves the global task list unchanged. At the concrete empty
state with assignee "Alice" (not registered), the call changes the global
task list: the code appends the new task before the membership check. -/
theorem addTask_unknownMember_counterexample :
    findMember emptyTM.team_members ("Alice") = none ∧
    (TaskManager.add_task emptyTM ("t") ("d") ⟨2024, 1, 1⟩ Priority.LOW ("Alice")
      sampleNow).1.tasks ≠ emptyTM.tasks := by
  decide

/-- C1 (amended): `add_task` with an `assigned_to` that names no registered
member raises the "does not exist" `ValueError`, leaves the member
dictionary (hence every member's workload and task list) unchanged and does
not persist, but the freshly built task has already been appended to the
in-memory global task list when the error is raised. -/
theorem addTask_unknownMember_spec (tm : TaskManager) (title description : String)
    (deadline : Date) (priority : Priority) (assigned_to : String) (now : DateTime)
    (h : findMember tm.team_members assigned_to = none) :
    (tm.add_task title description deadline priority assigned_to now).2
      = Except.error ("Team member " ++ assigned_to ++ " does not exist") ∧
    (tm.add_task title description deadline priority assigned_to now).1.team_members
      = tm.team_members ∧
    (tm.add_task title description deadline priority assigned_to now).1.tasks
      = tm.tasks ++ [⟨tm.nextId, title, description, deadline, priority, assigned_to,
          "Not Started", now⟩] := by
  unfold TaskManager.add_task
  rw [h]
  exact ⟨rfl, rfl, rfl⟩

/-- Witness for the amended C1 at a concrete input. -/
theorem addTask_unknownMember_spec_witness :
    (emptyTM.add_task ("t") ("d") ⟨2024, 1, 1⟩ Priority.LOW ("Alice") sampleNow).2
      = Except.error ("Team member " ++ "Alice" ++ " does not exist") ∧
    (emptyTM.add_task ("t") ("d") ⟨2024, 1, 1⟩ Priority.LOW ("Alice")
      sampleNow).1.team_members = emptyTM.team_members ∧
    (emptyTM.add_task ("t") ("d") ⟨2024, 1, 1⟩ Priority.LOW ("Alice") sampleNow).1.tasks
      = emptyTM.tasks ++ [⟨emptyTM.nextId, "t", "d", ⟨2024, 1, 1⟩, Priority.LOW,
          "Alice", "Not Started", sampleNow⟩] :=
  addTask_unknownMember_spec emptyTM ("t") ("d") ⟨2024, 1, 1⟩ Priority.LOW ("Alice")
    sampleNow (by decide)

/-- C2: after any sequence of `add_task` / `allocate_task` operations starting
from a state satisfying the workload invariant, every member's `workload`
equals the sum of `priority.value` over that member's task list. -/
theorem workload_invariant_preserved (tm : TaskManager) (ops : List Op)
    (h : tm.WF) : (runOps tm ops).WF :=
  WF_runOps ops tm h

/-- Witness for C2 at a concrete state and operation sequence. -/
theorem workload_invariant_preserved_witness :
    sampleTM.WF ∧ (runOps sampleTM [Op.add sampleCall, Op.alloc sampleTask1]).WF :=
  ⟨by decide, workload_invariant_preserved sampleTM
    [Op.add sampleCall, Op.alloc sampleTask1] (by decide)⟩

/-- C3: `add_task` returns a task whose id is `max existing id + 1` (so `1`
on an empty task list), and over any sequence of `add_task` calls with
registered assignees starting from an empty task list, the returned ids are
`1, 2, ...`: strictly increasing and positive. -/
theorem addTask_id_spec :
    (∀ (tm : TaskManager) (title description : String) (deadline : Date)
        (priority : Priority) (assigned_to : String) (now : DateTime) (t : Task),
        (tm.add_task title description deadline priority assigned_to now).2
          = Except.ok t → t.id = tm.nextId) ∧
    (∀ tm : TaskManager, tm.tasks = [] → tm.nextId = 1) ∧
    (∀ (ms : List TeamMember) (cs : List AddCall),
        (∀ c ∈ cs, c.assigned_to ∈ ms.map TeamMember.name) →
        (runAdds ⟨[], ms⟩ cs).2 = idsFrom 0 cs.length ∧
          (runAdds ⟨[], ms⟩ cs).2.Pairwise (· < ·) ∧
          ∀ i ∈ (runAdds ⟨[], ms⟩ cs).2, 0 < i) := by
  refine ⟨?_, ?_, ?_⟩
  · intro tm title description deadline priority assigned_to now t hok
    unfold TaskManager.add_task at hok
    cases hf : findMember tm.team_members assigned_to with
    | none =>
      rw [hf] at hok
      simp at hok
    | some mm =>
      rw [hf] at hok
      simp only [Option.isNone_some, Bool.false_eq_true, if_false,
        Except.ok.injEq] at hok
      rw [← hok]
  · intro tm h
    unfold TaskManager.nextId
    rw [h]
    rfl
  · intro ms cs hvalid
    have h := runAdds_spec cs ⟨[], ms⟩ 0 rfl hvalid
    have h1 : (runAdds ⟨[], ms⟩ cs).2 = idsFrom 0 cs.length := h.1
    refine ⟨h1, ?_, ?_⟩
    · rw [h1]
      exact idsFrom_pairwise 0 cs.length
    · intro i hi
      rw [h1] at hi
      have := idsFrom_mem 0 cs.length i hi
      omega

/-- Witness for C3: two valid `add_task` calls from the empty state issue
ids `[1, 2]`. -/
theorem addTask_id_spec_witness :
    (runAdds ⟨[], [sampleAlice]⟩ [sampleCall, sampleCall]).2 = idsFrom 0 2 ∧
      (runAdds ⟨[], [sampleAlice]⟩ [sampleCall, sampleCall]).2.Pairwise (· < ·) ∧
      ∀ i ∈ (runAdds ⟨[], [sampleAlice]⟩ [sampleCall, sampleCall]).2, 0 < i :=
  addTask_id_spec.2.2 [sampleAlice] [sampleCall, sampleCall] (by decide)

/-- C4 counterexample: the claim states that saving and reloading reproduces
identical field values for every `TeamMember`; at the concrete state where
Alice holds three tasks, the reloaded state differs (the member rows do not
store the task back-references, so Alice's task list comes back empty). -/
theorem save_load_roundtrip_counterexample :
    load_data sampleTM.save_data ≠ some sampleTM := by
  decide

/-- C4 (amended): saving then reloading reproduces every `Task` exactly
(priority via its symbolic name, deadline and created_at via their ISO-8601
text) and every `TeamMember`'s name, email and workload, but each reloaded
member's task list is empty because the member rows do not store it. -/
theorem save_load_roundtrip_spec (tm : TaskManager)
    (h : ∀ t ∈ tm.tasks, t.deadline.Valid ∧ t.created_at.Valid) :
    load_data tm.save_data
      = some ⟨tm.tasks, tm.team_members.map (fun m => { m with tasks := [] })⟩ := by
  simp only [load_data, TaskManager.save_data, loadTasks_save tm.tasks h,
    List.map_map]
  simp only [Function.comp_def, member_row_roundtrip]

/-- Witness for the amended C4 at a concrete state. -/
theorem save_load_roundtrip_spec_witness :
    load_data sampleTM.save_data
      = some ⟨sampleTM.tasks,
          sampleTM.team_members.map (fun m => { m with tasks := [] })⟩ :=
  save_load_roundtrip_spec sampleTM (by decide)

/-- C5 counterexample: the claim states that `allocate_task` in a state with
no registered members completes without an unhandled exception; at the
concrete empty state it raises the `ValueError` coming from `min()` on an
empty sequence. -/
theorem allocate_empty_counterexample :
    isOkE (emptyTM.allocate_task sampleTask1).2 = false ∧
    (emptyTM.allocate_task sampleTask1).2
      = Except.error ("min() arg is an empty sequence") := by
  decide

/-- C5 (amended): `allocate_task` raises `ValueError` (from `min()` over an
empty sequence) exactly when no team member is registered; with at least one
registered member it completes without raising. -/
theorem allocate_totality_spec (tm : TaskManager) (task : Task) :
    (tm.team_members = [] →
      (tm.allocate_task task).2 = Except.error ("min() arg is an empty sequence")) ∧
    (tm.team_members ≠ [] → isOkE (tm.allocate_task task).2 = true) := by
  constructor
  · intro h
    unfold TaskManager.allocate_task
    rw [h]
    rfl
  · intro h
    unfold TaskManager.allocate_task
    cases hms : tm.team_members with
    | nil => exact absurd hms h
    | cons m ms => rfl

/-- Witness for the amended C5 at concrete inputs. -/
theorem allocate_totality_spec_witness :
    isOkE ((⟨[], [sampleBob, sampleCarol]⟩ : TaskManager).allocate_task
      sampleTask1).2 = true :=
  (allocate_totality_spec ⟨[], [sampleBob, sampleCarol]⟩ sampleTask1).2 (by decide)

/-- C6: with at least one registered member (member names pairwise distinct,
as dictionary keys are), `allocate_task` picks the member with minimum
workload, first such in registration order (everyone before it is strictly
more loaded), overwrites the task's `assigned_to` with that member's name,
appends the task to that member's list, adds `priority.value` to that
member's workload, and leaves the global task list unchanged. -/
theorem allocate_minWorkload_spec (tm : TaskManager) (task : Task)
    (hne : tm.team_members ≠ [])
    (hnd : (tm.team_members.map TeamMember.name).Nodup) :
    ∃ l₁ m l₂,
      tm.team_members = l₁ ++ m :: l₂ ∧
      (∀ x ∈ l₁, m.workload < x.workload) ∧
      (∀ x ∈ l₂, m.workload ≤ x.workload) ∧
      (tm.allocate_task task).2 = Except.ok { task with assigned_to := m.name } ∧
      (tm.allocate_task task).1.tasks = tm.tasks ∧
      (tm.allocate_task task).1.team_members =
        l₁ ++ { m with tasks := m.tasks ++ [{ task with assigned_to := m.name }],
                       workload := m.workload + task.priority.value } :: l₂ := by
  cases hms : tm.team_members with
  | nil => exact absurd hms hne
  | cons x xs =>
    obtain ⟨hacc, l₁, l₂, hdec, hlt, hle⟩ := minBy_spec xs x
    have hnames : ∀ y ∈ l₁, y.name ≠ (minBy xs x).name := by
      apply nodup_decomp_names l₁ (minBy xs x) l₂
      rw [← hdec, ← hms]
      exact hnd
    refine ⟨l₁, minBy xs x, l₂, hdec, hlt, hle, ?_, ?_, ?_⟩
    · unfold TaskManager.allocate_task
      rw [hms]
      rfl
    · unfold TaskManager.allocate_task
      rw [hms]
      rfl
    · unfold TaskManager.allocate_task
      rw [hms]
      simp only [minByWorkload]
      rw [hdec]
      exact updateMember_append l₁ (minBy xs x) l₂ _ hnames

/-- Witness for C6 at a concrete two-member state: Carol (workload 2) wins
over Bob (workload 5). -/
theorem allocate_minWorkload_spec_witness :
    ∃ l₁ m l₂,
      (⟨[], [sampleBob, sampleCarol]⟩ : TaskManager).team_members = l₁ ++ m :: l₂ ∧
      (∀ x ∈ l₁, m.workload < x.workload) ∧
      (∀ x ∈ l₂, m.workload ≤ x.workload) ∧
      ((⟨[], [sampleBob, sampleCarol]⟩ : TaskManager).allocate_task sampleTask1).2
        = Except.ok { sampleTask1 with assigned_to := m.name } ∧
      ((⟨[], [sampleBob, sampleCarol]⟩ : TaskManager).allocate_task
        sampleTask1).1.tasks = (⟨[], [sampleBob, sampleCarol]⟩ : TaskManager).tasks ∧
      ((⟨[], [sampleBob, sampleCarol]⟩ : TaskManager).allocate_task
        sampleTask1).1.team_members =
        l₁ ++ { m with
          tasks := m.tasks ++ [{ sampleTask1 with assigned_to := m.name }],
          workload := m.workload + sampleTask1.priority.value } :: l₂ :=
  allocate_minWorkload_spec ⟨[], [sampleBob, sampleCarol]⟩ sampleTask1
    (by decide) (by decide)

/-- C7: `update_task_status` changes nothing (and signals no error) when no
task has the given id; when the task list decomposes around the first task
with that id, only that task's status field is overwritten and the member
dictionary is untouched. -/
theorem update_task_status_spec (tm : TaskManager) (task_id : Int)
    (new_status : String) :
    ((∀ t ∈ tm.tasks, t.id ≠ task_id) →
      tm.update_task_status task_id new_status = tm) ∧
    (∀ l₁ t l₂, tm.tasks = l₁ ++ t :: l₂ → (∀ x ∈ l₁, x.id ≠ task_id) →
      t.id = task_id →
      (tm.update_task_status task_id new_status).tasks
        = l₁ ++ { t with status := new_status } :: l₂ ∧
      (tm.update_task_status task_id new_status).team_members = tm.team_members) := by
  constructor
  · intro h
    unfold TaskManager.update_task_status
    rw [setStatus_not_found task_id new_status tm.tasks h]
  · intro l₁ t l₂ hdec h1 h2
    unfold TaskManager.update_task_status
    rw [hdec]
    exact ⟨setStatus_found task_id new_status l₁ t l₂ h1 h2, rfl⟩

/-- Witness for C7: updating task 2 of the sample state rewrites exactly that
status. -/
theorem update_task_status_spec_witness :
    (sampleTM.update_task_status 2 ("Completed")).tasks
      = [sampleTask1] ++ { sampleTask2 with status := "Completed" } :: [sampleTask3] ∧
    (sampleTM.update_task_status 2 ("Completed")).team_members
      = sampleTM.team_members :=
  (update_task_status_spec sampleTM 2 ("Completed")).2 [sampleTask1] sampleTask2
    [sampleTask3] (by decide) (by decide) (by decide)

/-- C8: `generate_to_do_list` returns a permutation of the named member's
task list that is sorted descending in the composite key (priority.value,
deadline) — so highest priority first and, among equal priorities, later
deadlines first — and returns `[]` without error for an unknown member. -/
theorem generate_to_do_list_spec (tm : TaskManager) (who : String) :
    (∀ m, findMember tm.team_members who = some m →
      (tm.generate_to_do_list who).Perm m.tasks ∧
      (tm.generate_to_do_list who).Pairwise (fun a b => todoKeyGE a b = true)) ∧
    (findMember tm.team_members who = none → tm.generate_to_do_list who = []) := by
  constructor
  · intro m hm
    unfold TaskManager.generate_to_do_list
    rw [hm]
    exact ⟨List.mergeSort_perm m.tasks todoKeyGE,
      List.sorted_mergeSort todoKeyGE_trans todoKeyGE_total m.tasks⟩
  · intro hm
    unfold TaskManager.generate_to_do_list
    rw [hm]

/-- Witness for C8 at the spec's example state (Alice's three tasks). -/
theorem generate_to_do_list_spec_witness :
    (sampleTM.generate_to_do_list ("Alice")).Perm sampleAlice.tasks ∧
    (sampleTM.generate_to_do_list ("Alice")).Pairwise
      (fun a b => todoKeyGE a b = true) :=
  (generate_to_do_list_spec sampleTM ("Alice")).1 sampleAlice (by decide)

/-- C9 counterexample: the claim asserts that `get_upcoming_deadlines`
returns the empty list for every negative `days`. At the concrete call-time
date 0001-01-01 (`date.min`) with `days = -1`, the source instead raises
`OverflowError` from `today + timedelta(days=days)` before any filtering —
the same happens for any `days` that takes the target below `date.min`,
for instance `days = -1000000` from a present-day `today`. -/
theorem get_upcoming_deadlines_counterexample :
    ((-1 : Int) < 0) ∧
    sampleTM.get_upcoming_deadlines ⟨1, 1, 1⟩ (-1) ≠ Except.ok [] ∧
    sampleTM.get_upcoming_deadlines ⟨1, 1, 1⟩ (-1)
      = Except.error ("date value out of range") := by
  decide

/-- C9 (amended): when `today + timedelta(days)` is a representable date
`dl`, `get_upcoming_deadlines` returns exactly the tasks whose deadline lies
in the inclusive range `[today, dl]`; then for `days = 0` every returned task
is due today, and for negative `days` the returned list is empty. When the
target date leaves Python's representable range, the call raises
`OverflowError` ("date value out of range") instead. -/
theorem get_upcoming_deadlines_spec (tm : TaskManager) (today : Date)
    (days : Int) :
    (∀ dl, today.addDaysChecked days = some dl →
      ∃ l, tm.get_upcoming_deadlines today days = Except.ok l ∧
        (∀ t, t ∈ l ↔ t ∈ tm.tasks ∧ Date.le today t.deadline ∧
          Date.le t.deadline dl) ∧
        (days = 0 → ∀ t ∈ l, t.deadline = today) ∧
        (days < 0 → l = [])) ∧
    (today.addDaysChecked days = none →
      tm.get_upcoming_deadlines today days
        = Except.error ("date value out of range")) := by
  constructor
  · intro dl hdl
    have hdl2 : dl = today.addDays days := addDaysChecked_some today days dl hdl
    refine ⟨tm.tasks.filter (fun t =>
      Date.ble today t.deadline && Date.ble t.deadline dl), ?_, ?_, ?_, ?_⟩
    · simp only [TaskManager.get_upcoming_deadlines, hdl]
    · intro t
      simp only [List.mem_filter, Bool.and_eq_true, Date.ble_iff]
    · intro h0 t ht
      rw [h0] at hdl2
      rw [Date.addDays_zero] at hdl2
      simp only [List.mem_filter, Bool.and_eq_true, Date.ble_iff, hdl2] at ht
      exact Date.le_antisymm ht.2.2 ht.2.1
    · intro hneg
      rw [List.filter_eq_nil_iff]
      intro t ht
      rw [Bool.and_eq_true, Date.ble_iff, Date.ble_iff]
      rintro ⟨h1, h2⟩
      have h3 := Date.addDays_neg_lt today days hneg
      rw [← hdl2] at h3
      exact Date.le_lt_asymm (Date.le_trans h1 h2) h3
  · intro h
    simp only [TaskManager.get_upcoming_deadlines, h]

/-- Witness for the amended C9: a one-day negative look-ahead from
2024-01-10 stays representable (target 2024-01-09) and yields the empty
list. -/
theorem get_upcoming_deadlines_spec_witness :
    ∃ l, sampleTM.get_upcoming_deadlines ⟨2024, 1, 10⟩ (-1) = Except.ok l ∧
      (∀ t, t ∈ l ↔ t ∈ sampleTM.tasks ∧ Date.le ⟨2024, 1, 10⟩ t.deadline ∧
        Date.le t.deadline ⟨2024, 1, 9⟩) ∧
      ((-1 : Int) = 0 → ∀ t ∈ l, t.deadline = ⟨2024, 1, 10⟩) ∧
      ((-1 : Int) < 0 → l = []) :=
  (get_upcoming_deadlines_spec sampleTM ⟨2024, 1, 10⟩ (-1)).1 ⟨2024, 1, 9⟩
    (by decide)

/-- C10: `add_team_member` with a fresh name appends a member with that name
and email, an empty task list and workload 0; with an already registered
name it raises the "already exists" `ValueError` and changes nothing. -/
theorem add_team_member_spec (tm : TaskManager) (name email : String) :
    (findMember tm.team_members name = none →
      (tm.add_team_member name email).1.team_members
        = tm.team_members ++ [⟨name, email, [], 0⟩] ∧
      (tm.add_team_member name email).1.tasks = tm.tasks ∧
      (tm.add_team_member name email).2 = Except.ok ()) ∧
    (∀ m, findMember tm.team_members name = some m →
      (tm.add_team_member name email).1 = tm ∧
      (tm.add_team_member name email).2
        = Except.error ("Team member " ++ name ++ " already exists")) := by
  constructor
  · intro h
    unfold TaskManager.add_team_member
    rw [h]
    exact ⟨rfl, rfl, rfl⟩
  · intro m h
    unfold TaskManager.add_team_member
    rw [h]
    exact ⟨rfl, rfl⟩

/-- Witness for C10 at concrete inputs (fresh name "Bob"). -/
theorem add_team_member_spec_witness :
    (sampleTM.add_team_member ("Bob") ("bob@example.com")).1.team_members
      = sampleTM.team_members ++ [⟨"Bob", "bob@example.com", [], 0⟩] ∧
    (sampleTM.add_team_member ("Bob") ("bob@example.com")).1.tasks = sampleTM.tasks ∧
    (sampleTM.add_team_member ("Bob") ("bob@example.com")).2 = Except.ok () :=
  (add_team_member_spec sampleTM ("Bob") ("bob@example.com")).1 (by decide)

end TMS
